import Mathlib

/-! Verification of the live log-tailing subsystem of lambda-forge
(`src/lambda_forge/logs/tui/ui/widgets/cloudwatch_log.py`).

The `CloudWatchLogs` widget keeps, per monitored lambda function:
  * `logs`     — the settled entries already merged into the visible list,
  * `new_logs` — the pending entries received while the tab was inactive,
  * the `OptionList` of displayed rows, modelled by `display` (the list of
    entries behind `log_list._options`) and `displayVisible` (the
    `log_list.display` flag),
  * the tab label (a rich `Text`, modelled as its list of string segments).

`update_logs` is the timer callback (one poll cycle), `reset_logs` the
flush, and `update_tab_label` recomputes the tab label from `new_logs`.
Tab activation is owned by the surrounding TUI shell, which is not part of
the analysed sources; it is modelled from the spec (`activate`,
`deactivate`). -/

/-- A log record: arrival-ordered, with a derived error classification
(`is_error`), matching the spec's `LogEntry` data model. -/
structure LogEntry where
  timestamp : Nat
  message : String
  is_error : Bool
deriving DecidableEq, Repr

/-- Modelled from the spec: failures of the log-source collaborator.
`ForgeLogsAPI.get_logs` is not among the analysed sources; the spec names
network, auth and timeout failures, all surfacing as `FetchError`. -/
inductive FetchError where
  | network
  | auth
  | timeout
deriving DecidableEq, Repr

/-- The per-source state of one `CloudWatchLogs` widget.  `lambda_name`,
`logs` and `new_logs` are the fields set in `__init__`; `display` and
`displayVisible` model the `OptionList`; `active` models the derived check
`self.parent_tab.id == self.tabbed_content.active`; `label` models
`tab_pane.label` as the list of segments of the rich `Text`. -/
structure TabState where
  lambda_name : String
  logs : List LogEntry
  new_logs : List LogEntry
  display : List LogEntry
  displayVisible : Bool
  active : Bool
  label : List String
deriving DecidableEq, Repr

/-- The label computation of `update_tab_label` (lines 47-70): the plain
lambda name when `new_logs` is empty, otherwise the name followed by
`" [ "`, a space, an error marker segment when the error count is nonzero,
an info marker segment when the non-error count is nonzero, and `" ] "`.
A rich `Text` is modelled as the list of its (non-empty) segments, so the
truthiness test `if post_attach:` becomes a non-emptiness test. -/
def render_tab_label (lambda_name : String) (new_logs : List LogEntry) : List String :=
  if new_logs.isEmpty then [lambda_name]
  else
    let errors := new_logs.countP (fun l => l.is_error)
    let non_errors := new_logs.length - errors
    let post_attach : List String :=
      (if 0 < errors then ["⚠ " ++ toString errors ++ " "] else []) ++
      (if 0 < non_errors then ["● " ++ toString non_errors ++ " "] else [])
    let post_attach2 := if post_attach.isEmpty then post_attach else [" "] ++ post_attach
    [lambda_name] ++ [" [ "] ++ post_attach2 ++ [" ] "]

/-- `CloudWatchLogs.update_tab_label`: recompute the tab label from the
current `new_logs` and store it on the tab pane.  All other state is left
untouched. -/
def update_tab_label (s : TabState) : TabState :=
  { s with label := render_tab_label s.lambda_name s.new_logs }

/-- `CloudWatchLogs.reset_logs` (lines 42-45): `logs.extend(new_logs)`,
`new_logs.clear()`, then `update_tab_label()`. -/
def reset_logs (s : TabState) : TabState :=
  update_tab_label { s with logs := s.logs ++ s.new_logs, new_logs := [] }

/-- The badge computation inlined in `update_tab_label` (lines 53-55):
`errors = len([log for log in new_logs if log.is_error])`,
`non_errors = len(new_logs) - errors`. -/
def badge (s : TabState) : Nat × Nat :=
  (s.new_logs.countP (fun l => l.is_error),
   s.new_logs.length - s.new_logs.countP (fun l => l.is_error))

/-- `CloudWatchLogs.update_logs` (lines 86-100), one poll cycle.  The fetch
`list(self.logs_api.get_logs(self.lambda_name))` is passed in as an
`Except` value (the collaborator is external; per the spec a failed fetch
skips the cycle with no state mutation — and indeed the fetch is the first
statement, before any mutation).  On success:
`new_logs = all_logs[len(logs):]`; if empty, return; otherwise append
`all_logs[len(log_list._options):]` to the option list (making it visible
when anything is added), recompute the label, and, when this tab is the
active one, `reset_logs()`. -/
def update_logs (fetched : Except FetchError (List LogEntry)) (s : TabState) : TabState :=
  match fetched with
  | Except.error _ => s
  | Except.ok all_logs =>
    if (List.drop s.logs.length all_logs).isEmpty then
      { s with new_logs := List.drop s.logs.length all_logs }
    else if s.active then
      reset_logs (update_tab_label
        { s with
          new_logs := List.drop s.logs.length all_logs,
          display := s.display ++ List.drop s.display.length all_logs,
          displayVisible :=
            s.displayVisible || !(List.drop s.display.length all_logs).isEmpty })
    else
      update_tab_label
        { s with
          new_logs := List.drop s.logs.length all_logs,
          display := s.display ++ List.drop s.display.length all_logs,
          displayVisible :=
            s.displayVisible || !(List.drop s.display.length all_logs).isEmpty }

/-- Modelled from the spec: the Dashboard activation handler (the tab
switch lives in the TUI shell, not in the analysed sources) marks the tab
active and flushes pending entries through the source's `reset_logs`. -/
def activate (s : TabState) : TabState :=
  reset_logs { s with active := true }

/-- Modelled from the spec: `deactivate()` clears the active flag and does
not touch `logs` or `new_logs`. -/
def deactivate (s : TabState) : TabState :=
  { s with active := false }

/-- The widget's initial state (`__init__` plus the spec's lifecycle: a tab
is created inactive with empty `logs`/`new_logs`; `on_mount` hides the
option list; the pane label starts as the plain lambda name). -/
def TabState.init (lambda_name : String) : TabState :=
  { lambda_name := lambda_name, logs := [], new_logs := [], display := [],
    displayVisible := false, active := false, label := [lambda_name] }

/-- One externally triggered operation on a tab: a poll cycle carrying the
fetch outcome, or an activation change. -/
inductive Op where
  | poll (fetched : Except FetchError (List LogEntry))
  | activate
  | deactivate

/-- Apply one operation to the tab state. -/
def stepOp (s : TabState) (op : Op) : TabState :=
  match op with
  | Op.poll fetched => update_logs fetched s
  | Op.activate => activate s
  | Op.deactivate => deactivate s

/-- Run a sequence of operations in order. -/
def runOps (s : TabState) (ops : List Op) : TabState :=
  ops.foldl stepOp s

/-- The append-only contract of the log source (spec §4.1): starting from
a previously fetched history `H`, every successful fetch extends the
previous one. -/
def FetchChain : List LogEntry → List Op → Prop
  | _, [] => True
  | H, Op.poll (Except.ok all_logs) :: ops => H <+: all_logs ∧ FetchChain all_logs ops
  | H, Op.poll (Except.error _) :: ops => FetchChain H ops
  | H, Op.activate :: ops => FetchChain H ops
  | H, Op.deactivate :: ops => FetchChain H ops

/-- The full record history after a sequence of operations: the result of
the last successful fetch (under `FetchChain` every earlier fetch is one
of its prefixes). -/
def lastFetch (H : List LogEntry) : List Op → List LogEntry
  | [] => H
  | Op.poll (Except.ok all_logs) :: ops => lastFetch all_logs ops
  | _ :: ops => lastFetch H ops

/-- The reconciliation invariant tying a tab state to a fetched history
`H`: `logs ++ new_logs = H`; the option list holds exactly `H`; an active
tab has no pending entries; and the stored label is the rendering of the
current `new_logs`. -/
def TabInv (H : List LogEntry) (s : TabState) : Prop :=
  s.logs ++ s.new_logs = H ∧
  s.display = H ∧
  (s.active = true → s.new_logs = []) ∧
  s.label = render_tab_label s.lambda_name s.new_logs

/-- Counting the complement: `len - countP p = countP (not ∘ p)`. -/
theorem countP_not_eq (p : LogEntry → Bool) (l : List LogEntry) :
    l.length - l.countP p = l.countP (fun a => !p a) := by
  induction l with
  | nil => rfl
  | cons a l ih =>
    have hle := List.countP_le_length p (l := l)
    cases h : p a
    · simp [List.countP_cons, h, ← ih]
      omega
    · simp [List.countP_cons, h, ← ih]

/-- If `logs ++ new_logs = H` and the fetch extends `H`, the slice the code
takes at `len(logs)` is the old pending entries followed by the genuinely
new suffix `all_logs[len(H):]`. -/
theorem drop_logs_eq (s : TabState) (H all_logs : List LogEntry)
    (h2 : s.logs ++ s.new_logs = H) (h3 : H <+: all_logs) :
    List.drop s.logs.length all_logs = s.new_logs ++ List.drop H.length all_logs := by
  obtain ⟨T, rfl⟩ := h3
  subst h2
  have ha : List.drop (s.logs ++ s.new_logs).length ((s.logs ++ s.new_logs) ++ T) = T :=
    List.drop_left _ _
  have hb : List.drop s.logs.length ((s.logs ++ s.new_logs) ++ T) = s.new_logs ++ T := by
    rw [List.append_assoc]
    exact List.drop_left _ _
  rw [ha, hb]

/-- Behaviour of one successful poll cycle on an inactive tab: `logs` is
untouched, the new suffix is appended (observationally) to `new_logs`, and
the tab stays inactive. -/
theorem update_logs_inactive (s : TabState) (H all_logs : List LogEntry)
    (h1 : s.active = false) (h2 : s.logs ++ s.new_logs = H) (h3 : H <+: all_logs) :
    (update_logs (Except.ok all_logs) s).logs = s.logs ∧
    (update_logs (Except.ok all_logs) s).new_logs
      = s.new_logs ++ List.drop H.length all_logs ∧
    (update_logs (Except.ok all_logs) s).active = false := by
  have hd := drop_logs_eq s H all_logs h2 h3
  by_cases hc : s.new_logs ++ List.drop H.length all_logs = []
  · obtain ⟨hn, hT⟩ := List.append_eq_nil.mp hc
    simp [update_logs, hd, hn, hT, h1, update_tab_label]
  · simp [update_logs, hd, hc, h1, update_tab_label, List.isEmpty_iff]

/-- A successful poll preserves the reconciliation invariant, advancing
the history to the freshly fetched record set. -/
theorem tabInv_poll (s : TabState) (H all_logs : List LogEntry)
    (hInv : TabInv H s) (h3 : H <+: all_logs) :
    TabInv all_logs (update_logs (Except.ok all_logs) s) := by
  obtain ⟨h2, hdisp, hact, hlab⟩ := hInv
  obtain ⟨T, rfl⟩ := h3
  have hd : List.drop s.logs.length (H ++ T) = s.new_logs ++ T := by
    have hb := drop_logs_eq s H (H ++ T) h2 ⟨T, rfl⟩
    rwa [List.drop_left] at hb
  by_cases hc : s.new_logs ++ T = []
  · obtain ⟨hn, hT⟩ := List.append_eq_nil.mp hc
    subst hT
    rw [hn, List.append_nil] at h2
    subst h2
    refine ⟨?_, ?_, ?_, ?_⟩ <;>
      simp [update_logs, hd, hn, hdisp, hlab]
  · by_cases ha : s.active = true
    · have hn := hact ha
      have hT : T ≠ [] := by simpa [hn] using hc
      rw [hn, List.append_nil] at h2
      subst h2
      refine ⟨?_, ?_, ?_, ?_⟩ <;>
        simp [update_logs, hd, hn, hT, ha, reset_logs, update_tab_label,
          hdisp, List.isEmpty_iff, List.drop_left]
    · have ha' : s.active = false := by
        cases hab : s.active
        · rfl
        · exact absurd hab ha
      refine ⟨?_, ?_, ?_, ?_⟩ <;>
        simp [update_logs, hd, hc, ha', update_tab_label, hdisp,
          List.isEmpty_iff, List.drop_left, ← h2, List.append_assoc]

/-- Activation preserves the reconciliation invariant. -/
theorem tabInv_activate (s : TabState) (H : List LogEntry) (hInv : TabInv H s) :
    TabInv H (activate s) := by
  obtain ⟨h2, hdisp, _, _⟩ := hInv
  exact ⟨by simpa [activate, reset_logs, update_tab_label] using h2,
    by simpa [activate, reset_logs, update_tab_label] using hdisp,
    fun _ => rfl, rfl⟩

/-- Every operation preserves the reconciliation invariant, with the
history advanced by a successful fetch. -/
theorem tabInv_run (ops : List Op) (H : List LogEntry) (s : TabState)
    (hInv : TabInv H s) (hchain : FetchChain H ops) :
    TabInv (lastFetch H ops) (runOps s ops) := by
  induction ops generalizing H s with
  | nil => exact hInv
  | cons op ops ih =>
    cases op with
    | poll fetched =>
      cases fetched with
      | ok all_logs =>
        obtain ⟨h3, hchain'⟩ := hchain
        exact ih all_logs _ (tabInv_poll s H all_logs hInv h3) hchain'
      | error e => exact ih H s hInv hchain
    | activate => exact ih H _ (tabInv_activate s H hInv) hchain
    | deactivate =>
      obtain ⟨h2, hdisp, _, hlab⟩ := hInv
      exact ih H (deactivate s)
        ⟨h2, hdisp, by simp [deactivate], hlab⟩ hchain

/-- The initial widget state satisfies the invariant for the empty
history. -/
theorem tabInv_init (name : String) : TabInv [] (TabState.init name) :=
  ⟨rfl, rfl, fun _ => rfl, rfl⟩

/-- `logs` only ever grows: every single operation leaves the current
`logs` as a prefix of the new one. -/
theorem stepOp_logs_grows (s : TabState) (op : Op) :
    s.logs <+: (stepOp s op).logs := by
  cases op with
  | poll fetched =>
    cases fetched with
    | error e => exact List.prefix_refl _
    | ok all_logs =>
      show s.logs <+: (update_logs (Except.ok all_logs) s).logs
      by_cases hc : (List.drop s.logs.length all_logs).isEmpty = true
      · have hl : (update_logs (Except.ok all_logs) s).logs = s.logs := by
          simp [update_logs, hc]
        rw [hl]
      · by_cases ha : s.active = true
        · have hl : (update_logs (Except.ok all_logs) s).logs
              = s.logs ++ List.drop s.logs.length all_logs := by
            simp [update_logs, hc, ha, reset_logs, update_tab_label]
          rw [hl]
          exact List.prefix_append _ _
        · have hl : (update_logs (Except.ok all_logs) s).logs = s.logs := by
            simp [update_logs, hc, ha, update_tab_label]
          rw [hl]
  | activate => exact List.prefix_append _ _
  | deactivate => exact List.prefix_refl _

/-- `logs` only ever grows, across any operation sequence. -/
theorem runOps_logs_grows (ops : List Op) (s : TabState) :
    s.logs <+: (runOps s ops).logs := by
  induction ops generalizing s with
  | nil => exact List.prefix_refl _
  | cons op ops ih =>
    exact List.IsPrefix.trans (stepOp_logs_grows s op) (ih (stepOp s op))

/-- Any single operation preserves "active tabs have no pending entries". -/
theorem stepOp_active_empty (s : TabState) (op : Op)
    (h : s.active = false ∨ s.new_logs = []) :
    (stepOp s op).active = false ∨ (stepOp s op).new_logs = [] := by
  cases op with
  | poll fetched =>
    cases fetched with
    | error e => exact h
    | ok all_logs =>
      by_cases hc : (List.drop s.logs.length all_logs).isEmpty = true
      · right
        have hz : List.drop s.logs.length all_logs = [] := List.isEmpty_iff.mp hc
        simp [stepOp, update_logs, hz]
      · by_cases ha : s.active = true
        · right
          simp [stepOp, update_logs, hc, ha, reset_logs, update_tab_label]
        · left
          simp only [Bool.not_eq_true] at ha
          simp [stepOp, update_logs, hc, ha, update_tab_label]
  | activate =>
    right
    simp [stepOp, activate, reset_logs, update_tab_label]
  | deactivate =>
    left
    simp [stepOp, deactivate]

/-- "Active tabs have no pending entries" holds after any operation
sequence started in a state satisfying it. -/
theorem runOps_active_empty (ops : List Op) (s : TabState)
    (h : s.active = false ∨ s.new_logs = []) :
    (runOps s ops).active = false ∨ (runOps s ops).new_logs = [] := by
  induction ops generalizing s with
  | nil => exact h
  | cons op ops ih => exact ih (stepOp s op) (stepOp_active_empty s op h)

/-- Concrete log entries used by the witnesses. -/
def entryA : LogEntry := ⟨1, "start", false⟩

/-- A concrete error entry used by the witnesses. -/
def entryB : LogEntry := ⟨2, "boom", true⟩

/-- A further concrete entry used by the witnesses. -/
def entryC : LogEntry := ⟨3, "done", false⟩

/-- An inactive tab with one pending entry, consistent with the fetched
history `[entryA]`. -/
def tabPending : TabState :=
  { lambda_name := "fn", logs := [], new_logs := [entryA], display := [entryA],
    displayVisible := true, active := false,
    label := render_tab_label "fn" [entryA] }

/-- An inactive tab with one settled entry and no pending entry,
consistent with the fetched history `[entryA]`. -/
def tabSettled : TabState :=
  { lambda_name := "fn", logs := [entryA], new_logs := [], display := [entryA],
    displayVisible := true, active := false, label := ["fn"] }

/-- Claim C1: for every `TabState` and every sequence of
absorb/activate/deactivate/poll operations, the settled sequence (`logs`)
at a later time has the settled sequence at any earlier time as an
in-order prefix — entries are never removed from it and never reordered. -/
theorem C1_settled_append_only (s : TabState) (ops ops2 : List Op) :
    (runOps s ops).logs <+: (runOps s (ops ++ ops2)).logs := by
  have hsplit : runOps s (ops ++ ops2) = runOps (runOps s ops) ops2 :=
    List.foldl_append _ _ _ _
  rw [hsplit]
  exact runOps_logs_grows ops2 (runOps s ops)

/-- Claim C2: after every operation sequence obeying the append-only fetch
contract, `logs` (settled) followed by `new_logs` (pending) is exactly the
full fetched history, and `logs` is an in-order prefix of that history. -/
theorem C2_settled_pending_partition (name : String) (ops : List Op)
    (hchain : FetchChain [] ops) :
    (runOps (TabState.init name) ops).logs ++ (runOps (TabState.init name) ops).new_logs
      = lastFetch [] ops ∧
    (runOps (TabState.init name) ops).logs <+: lastFetch [] ops := by
  have h := tabInv_run ops [] (TabState.init name) (tabInv_init name) hchain
  exact ⟨h.1, ⟨_, h.1⟩⟩

/-- Witness for C2: a poll bringing one entry, an activation, and a poll
bringing a second entry partition into settled `++` pending `=` history. -/
theorem C2_settled_pending_partition_witness :
    FetchChain []
      [Op.poll (Except.ok [entryA]), Op.activate, Op.poll (Except.ok [entryA, entryB])] ∧
    (runOps (TabState.init "fn")
        [Op.poll (Except.ok [entryA]), Op.activate,
          Op.poll (Except.ok [entryA, entryB])]).logs
      ++ (runOps (TabState.init "fn")
        [Op.poll (Except.ok [entryA]), Op.activate,
          Op.poll (Except.ok [entryA, entryB])]).new_logs
      = lastFetch []
          [Op.poll (Except.ok [entryA]), Op.activate,
            Op.poll (Except.ok [entryA, entryB])] :=
  ⟨⟨⟨[entryA], rfl⟩, ⟨[entryB], rfl⟩, trivial⟩,
    (C2_settled_pending_partition "fn"
      [Op.poll (Except.ok [entryA]), Op.activate, Op.poll (Except.ok [entryA, entryB])]
      ⟨⟨[entryA], rfl⟩, ⟨[entryB], rfl⟩, trivial⟩).1⟩

/-- Claim C3: a non-empty delta absorbed while the tab is inactive leaves
`logs` unchanged and appends the delta (the fresh suffix past the known
history) to `new_logs`; a second inactive cycle accumulates its delta
behind the first, in call order. -/
theorem C3_inactive_absorb_accumulates (s : TabState)
    (H all_logs all_logs2 : List LogEntry)
    (h1 : s.active = false) (h2 : s.logs ++ s.new_logs = H) (h3 : H <+: all_logs)
    (h4 : List.drop H.length all_logs ≠ []) (h5 : all_logs <+: all_logs2) :
    (update_logs (Except.ok all_logs) s).logs = s.logs ∧
    (update_logs (Except.ok all_logs) s).new_logs
      = s.new_logs ++ List.drop H.length all_logs ∧
    (update_logs (Except.ok all_logs) s).active = false ∧
    (update_logs (Except.ok all_logs2) (update_logs (Except.ok all_logs) s)).logs
      = s.logs ∧
    (update_logs (Except.ok all_logs2) (update_logs (Except.ok all_logs) s)).new_logs
      = (s.new_logs ++ List.drop H.length all_logs) ++ List.drop all_logs.length all_logs2 := by
  obtain ⟨ha, hb, hc⟩ := update_logs_inactive s H all_logs h1 h2 h3
  have h2' : (update_logs (Except.ok all_logs) s).logs
      ++ (update_logs (Except.ok all_logs) s).new_logs = all_logs := by
    rw [ha, hb, ← List.append_assoc, h2]
    obtain ⟨T, rfl⟩ := h3
    rw [List.drop_left]
  obtain ⟨ha2, hb2, _⟩ :=
    update_logs_inactive (update_logs (Except.ok all_logs) s) all_logs all_logs2 hc h2' h5
  exact ⟨ha, hb, hc, by rw [ha2, ha], by rw [hb2, hb]⟩

/-- Witness for C3: an inactive tab holding pending `[entryA]` absorbs the
suffix `[entryB]` and then the suffix `[entryC]`, accumulating them in
call order. -/
theorem C3_inactive_absorb_accumulates_witness :
    List.drop [entryA].length [entryA, entryB] ≠ [] ∧
    ((update_logs (Except.ok [entryA, entryB]) tabPending).logs = tabPending.logs ∧
     (update_logs (Except.ok [entryA, entryB]) tabPending).new_logs
       = tabPending.new_logs ++ List.drop [entryA].length [entryA, entryB] ∧
     (update_logs (Except.ok [entryA, entryB]) tabPending).active = false ∧
     (update_logs (Except.ok [entryA, entryB, entryC])
         (update_logs (Except.ok [entryA, entryB]) tabPending)).logs = tabPending.logs ∧
     (update_logs (Except.ok [entryA, entryB, entryC])
         (update_logs (Except.ok [entryA, entryB]) tabPending)).new_logs
       = (tabPending.new_logs ++ List.drop [entryA].length [entryA, entryB])
           ++ List.drop [entryA, entryB].length [entryA, entryB, entryC]) :=
  ⟨by decide,
    C3_inactive_absorb_accumulates tabPending [entryA] [entryA, entryB]
      [entryA, entryB, entryC] rfl rfl ⟨[entryB], rfl⟩ (by decide) ⟨[entryC], rfl⟩⟩

/-- Claim C4: immediately after `activate` the pending sequence is empty
and every formerly pending entry sits, in order, at the tail of the
settled sequence; consequently, on every state reachable from the initial
one, an active tab has no pending entries. -/
theorem C4_flush_on_activate (s : TabState) (name : String) (ops : List Op) :
    (activate s).new_logs = [] ∧
    (activate s).logs = s.logs ++ s.new_logs ∧
    ((runOps (TabState.init name) ops).active = false ∨
      (runOps (TabState.init name) ops).new_logs = []) :=
  ⟨rfl, rfl, runOps_active_empty ops (TabState.init name) (Or.inl rfl)⟩

/-- Claim C5: the badge is exactly the pair (number of pending entries
classified as errors, number of pending entries not so classified), and
relabelling mutates none of the widget's log state. -/
theorem C5_badge_accuracy (s : TabState) :
    badge s = (s.new_logs.countP (fun l => l.is_error),
               s.new_logs.countP (fun l => !l.is_error)) ∧
    (update_tab_label s).logs = s.logs ∧
    (update_tab_label s).new_logs = s.new_logs ∧
    (update_tab_label s).display = s.display ∧
    (update_tab_label s).active = s.active := by
  refine ⟨?_, rfl, rfl, rfl, rfl⟩
  simp [badge, countP_not_eq]

/-- Claim C6: a poll cycle whose computed delta is empty (under the
append-only fetch contract) is a complete no-op: settled, pending, the
option list, the active flag and the stored label are all unchanged, and
no relabelling happens. -/
theorem C6_empty_delta_noop (s : TabState) (H all_logs : List LogEntry)
    (h2 : s.logs ++ s.new_logs = H) (h3 : H <+: all_logs)
    (h4 : List.drop s.logs.length all_logs = []) :
    update_logs (Except.ok all_logs) s = s := by
  have h4' := h4
  rw [drop_logs_eq s H all_logs h2 h3] at h4'
  obtain ⟨hn, hT⟩ := List.append_eq_nil.mp h4'
  cases s with
  | mk name logs new display vis act lab => simp_all [update_logs]

/-- Witness for C6: a tab with one settled entry polls an unchanged
history of one entry; the whole state is untouched. -/
theorem C6_empty_delta_noop_witness :
    List.drop tabSettled.logs.length [entryA] = [] ∧
    update_logs (Except.ok [entryA]) tabSettled = tabSettled :=
  ⟨by decide, C6_empty_delta_noop tabSettled [entryA] [entryA] rfl ⟨[], rfl⟩ (by decide)⟩

/-- Claim C7: a poll cycle against a consistent state computes the delta
`all_logs[known_count:]`, where the known count is the length of the
absorbed history `logs ++ new_logs`.  If the delta is empty the cycle has
no side effect at all; if it is non-empty, exactly that delta is absorbed
(appended behind the previously absorbed entries) and the known count
becomes `len(all_logs)`. -/
theorem C7_poll_delta (s : TabState) (H all_logs : List LogEntry)
    (hInv : TabInv H s) (h3 : H <+: all_logs) :
    (List.drop H.length all_logs = [] → update_logs (Except.ok all_logs) s = s) ∧
    (List.drop H.length all_logs ≠ [] →
      (update_logs (Except.ok all_logs) s).logs
          ++ (update_logs (Except.ok all_logs) s).new_logs
        = (s.logs ++ s.new_logs) ++ List.drop H.length all_logs ∧
      ((update_logs (Except.ok all_logs) s).logs
          ++ (update_logs (Except.ok all_logs) s).new_logs).length
        = all_logs.length) := by
  obtain ⟨h2, hdisp, hact, hlab⟩ := hInv
  obtain ⟨T, rfl⟩ := h3
  have hT : List.drop H.length (H ++ T) = T := List.drop_left _ _
  constructor
  · intro hdelta
    rw [hT] at hdelta
    subst hdelta
    have hd : List.drop s.logs.length (H ++ []) = s.new_logs := by
      have hb := drop_logs_eq s H (H ++ []) h2 ⟨[], rfl⟩
      simpa using hb
    by_cases hn : s.new_logs = []
    · cases s with
      | mk name logs new display vis act lab => simp_all [update_logs]
    · have ha : s.active = false := by
        cases hab : s.active
        · rfl
        · exact absurd (hact hab) hn
      cases s with
      | mk name logs new display vis act lab =>
        simp_all [update_logs, update_tab_label, List.isEmpty_iff, List.drop_left]
  · intro hdelta
    have hcat :=
      (tabInv_poll s H (H ++ T) ⟨h2, hdisp, hact, hlab⟩ ⟨T, rfl⟩).1
    rw [hT]
    constructor
    · rw [hcat, ← h2, List.append_assoc]
    · rw [hcat]

/-- Witness for C7: a tab with one settled entry and known count 1 polls a
history of two entries; the delta `[entryB]` is absorbed and the known
count becomes 2. -/
theorem C7_poll_delta_witness :
    TabInv [entryA] tabSettled ∧
    ((update_logs (Except.ok [entryA, entryB]) tabSettled).logs
        ++ (update_logs (Except.ok [entryA, entryB]) tabSettled).new_logs
      = (tabSettled.logs ++ tabSettled.new_logs)
          ++ List.drop [entryA].length [entryA, entryB] ∧
    ((update_logs (Except.ok [entryA, entryB]) tabSettled).logs
        ++ (update_logs (Except.ok [entryA, entryB]) tabSettled).new_logs).length
      = [entryA, entryB].length) :=
  ⟨⟨rfl, rfl, ⟨fun h => absurd h (by decide), rfl⟩⟩,
    (C7_poll_delta tabSettled [entryA] [entryA, entryB]
      ⟨rfl, rfl, ⟨fun h => absurd h (by decide), rfl⟩⟩ ⟨[entryB], rfl⟩).2 (by decide)⟩

/-- Claim C8: a poll cycle whose fetch fails is a complete no-op — the
state (settled, pending, display, active, label) is identical before and
after — and the remainder of the schedule behaves exactly as if the
failed cycle had never been attempted. -/
theorem C8_fetch_error_noop (e : FetchError) (s : TabState) (ops : List Op) :
    update_logs (Except.error e) s = s ∧
    runOps s (Op.poll (Except.error e) :: ops) = runOps s ops :=
  ⟨rfl, rfl⟩

/-- Claim C9: the rendered tab label is the bare lambda name exactly when
the badge counts are both zero (equivalently, nothing is pending);
otherwise it appends a bracketed suffix holding the error-count marker
precisely when the error count is positive and the non-error-count marker
precisely when the non-error count is positive. -/
theorem C9_label_markers (name : String) (pending : List LogEntry) :
    render_tab_label name pending
      = (if pending.isEmpty then [name]
         else
           [name, " [ ", " "] ++
           (if 0 < pending.countP (fun l => l.is_error) then
              ["⚠ " ++ toString (pending.countP (fun l => l.is_error)) ++ " "]
            else []) ++
           (if 0 < pending.length - pending.countP (fun l => l.is_error) then
              ["● " ++ toString (pending.length - pending.countP (fun l => l.is_error)) ++ " "]
            else []) ++ [" ] "]) ∧
    ((pending.countP (fun l => l.is_error) = 0 ∧
      pending.length - pending.countP (fun l => l.is_error) = 0) ↔ pending = []) := by
  constructor
  · by_cases hp : pending.isEmpty = true
    · simp [render_tab_label, hp]
    · have hp' : pending ≠ [] := by simpa [List.isEmpty_iff] using hp
      have hlen : 0 < pending.length := by
        cases pending
        · simp at hp
        · simp
      rcases Nat.eq_zero_or_pos (pending.countP (fun l => l.is_error)) with he | he
      · have hn : 0 < pending.length - pending.countP (fun l => l.is_error) := by
          omega
        simp [render_tab_label, hp, hp', he, hn]
      · rcases Nat.eq_zero_or_pos
          (pending.length - pending.countP (fun l => l.is_error)) with hn | hn
        · simp [render_tab_label, hp, hp', he, hn]
        · simp [render_tab_label, hp, hp', he, hn]
  · constructor
    · rintro ⟨he, hn⟩
      have hle := List.countP_le_length (fun l => l.is_error) (l := pending)
      have hlen : pending.length = 0 := by omega
      exact List.length_eq_zero.mp hlen
    · rintro rfl
      simp

/-- Claim C10: a poll cycle with a non-empty delta appends the new rows to
the option list immediately, active or not, and the slice it appends is
taken at the option list's own current length (`log_list._options`), not
at the settled length. -/
theorem C10_display_appends (s : TabState) (all_logs : List LogEntry)
    (h : List.drop s.logs.length all_logs ≠ []) :
    (update_logs (Except.ok all_logs) s).display
      = s.display ++ List.drop s.display.length all_logs := by
  by_cases ha : s.active = true
  · simp [update_logs, List.isEmpty_iff, h, ha, reset_logs, update_tab_label]
  · simp [update_logs, List.isEmpty_iff, h, ha, update_tab_label]

/-- Witness for C10: the settled list is empty but the option list already
holds `entryA`, so the appended slice starts at the option list's length
1, not at the settled length 0. -/
theorem C10_display_appends_witness :
    List.drop tabPending.logs.length [entryA, entryB] ≠ [] ∧
    (update_logs (Except.ok [entryA, entryB]) tabPending).display
      = tabPending.display ++ List.drop tabPending.display.length [entryA, entryB] :=
  ⟨by decide, C10_display_appends tabPending [entryA, entryB] (by decide)⟩
